import Mathlib

/-!
Verification development for the mesh-to-region resolution engine of the
brain-map viewer (`src/components/GltfBrainModel.jsx`, catalog in
`src/data/brainStructure.js`).

Embedding notes:
* JavaScript numbers are modelled as exact rationals (ℚ).  All numeric
  operations appearing in the source (add, sub, mul, div, min, max,
  comparisons) are exact on the inputs considered, so the rational model is
  faithful on them.
* three.js `Vector3.distanceTo` is a square root followed only by order
  comparisons (`dist < minDist`, `minDist < threshold`).  Since `Real.sqrt`
  is strictly monotone on nonnegative inputs, every comparison of distances
  is equivalent to the same comparison of squared distances; the embedding
  therefore carries squared distances (`dist2`) and squares each constant
  threshold (2.0 ↦ 4, 5.0 ↦ 25).
* three.js `Box3` with its ±∞ "empty" sentinels is modelled as
  `Option (Vec3 × Vec3)` (`none` = empty box); `Box3.getCenter` and
  `Box3.getSize` return the zero vector on an empty box exactly as the
  three.js implementations do.
-/

unseal Rat.add Rat.sub Rat.mul Rat.inv

namespace BrainMap

/-- A 3-component vector, modelling `THREE.Vector3` with exact rationals. -/
structure Vec3 where
  x : ℚ
  y : ℚ
  z : ℚ
deriving DecidableEq, Repr

/-- Componentwise addition (`Vector3.add`). -/
def vadd (a b : Vec3) : Vec3 := ⟨a.x + b.x, a.y + b.y, a.z + b.z⟩

/-- Componentwise subtraction (`Vector3.sub`). -/
def vsub (a b : Vec3) : Vec3 := ⟨a.x - b.x, a.y - b.y, a.z - b.z⟩

/-- Uniform scaling (`Vector3.multiplyScalar`). -/
def vscale (s : ℚ) (a : Vec3) : Vec3 := ⟨s * a.x, s * a.y, s * a.z⟩

/-- `Vector3.divideScalar`, which three.js implements as
multiplication by `1 / scalar`. -/
def vdiv (a : Vec3) (s : ℚ) : Vec3 := vscale (1 / s) a

/-- Componentwise minimum (`Vector3.min`). -/
def vmin (a b : Vec3) : Vec3 := ⟨min a.x b.x, min a.y b.y, min a.z b.z⟩

/-- Componentwise maximum (`Vector3.max`). -/
def vmax (a b : Vec3) : Vec3 := ⟨max a.x b.x, max a.y b.y, max a.z b.z⟩

/-- Squared Euclidean distance (`Vector3.distanceToSquared`); stands in for
`distanceTo`, which the source uses only inside order comparisons. -/
def dist2 (a b : Vec3) : ℚ :=
  (a.x - b.x) ^ 2 + (a.y - b.y) ^ 2 + (a.z - b.z) ^ 2

/-- A non-empty axis-aligned box: (min corner, max corner). -/
abbrev Box := Vec3 × Vec3

/-- `Box3.expandByPoint` lifted to the `Option` model of a possibly-empty
box: expanding an empty box by a point gives the degenerate point box. -/
def stepPoint (acc : Option Box) (v : Vec3) : Option Box :=
  match acc with
  | none => some (v, v)
  | some (lo, hi) => some (vmin lo v, vmax hi v)

/-- `BufferGeometry.computeBoundingBox`: the bounding box of a vertex list,
`none` when the geometry has no vertices (three.js "empty" box). -/
def computeBoundingBox (verts : List Vec3) : Option Box :=
  verts.foldl stepPoint none

/-- `Box3.union` on possibly-empty boxes. -/
def unionBox (a b : Option Box) : Option Box :=
  match a, b with
  | none, b => b
  | some ab, none => some ab
  | some (lo1, hi1), some (lo2, hi2) => some (vmin lo1 lo2, vmax hi1 hi2)

/-- One catalog entry of `brainStructure.js`.  Only the fields the engine
reads are carried: `id`, `name`, `type` (the `getMainRegions` filter key),
`color`, `position` (the anchor), and `parts`.  The remaining fields
(description, functions, …) are never read by the resolution engine. -/
structure Region where
  id : String
  name : String
  type : String
  color : String
  position : Vec3
  parts : List String
deriving DecidableEq, Repr

/-- `brainStructure.visual_network` (position `[0, 0.2, -1.8]`). -/
def visual_network : Region :=
  { id := "visual_network", name := "Visual Network (VIS)", type := "REGION",
    color := "#8E44AD", position := ⟨0, 1/5, -9/5⟩, parts := [] }

/-- `brainStructure.somatomotor_network` (position `[0, 1.9, 0.2]`). -/
def somatomotor_network : Region :=
  { id := "somatomotor_network", name := "Somatomotor Network (SMN)", type := "REGION",
    color := "#3498DB", position := ⟨0, 19/10, 1/5⟩, parts := [] }

/-- `brainStructure.dorsal_attention_network` (position `[1.2, 1.6, -0.5]`). -/
def dorsal_attention_network : Region :=
  { id := "dorsal_attention_network", name := "Dorsal Attention Network (DAN)", type := "REGION",
    color := "#2ECC71", position := ⟨6/5, 8/5, -1/2⟩, parts := [] }

/-- `brainStructure.ventral_attention_network` (position `[1.2, 0.5, 1.0]`). -/
def ventral_attention_network : Region :=
  { id := "ventral_attention_network", name := "Ventral Attention / Salience (VAN)", type := "REGION",
    color := "#E67E22", position := ⟨6/5, 1/2, 1⟩, parts := [] }

/-- `brainStructure.limbic_network` (position `[0, -0.5, 0.5]`). -/
def limbic_network : Region :=
  { id := "limbic_network", name := "Limbic Network (LIM)", type := "REGION",
    color := "#F1C40F", position := ⟨0, -1/2, 1/2⟩, parts := [] }

/-- `brainStructure.frontoparietal_network` (position `[1.4, 1.2, 1.2]`). -/
def frontoparietal_network : Region :=
  { id := "frontoparietal_network", name := "Frontoparietal Control (FPN)", type := "REGION",
    color := "#9B59B6", position := ⟨7/5, 6/5, 6/5⟩, parts := [] }

/-- `brainStructure.default_mode_network` (position `[0, 1.0, 1.8]`). -/
def default_mode_network : Region :=
  { id := "default_mode_network", name := "Default Mode Network (DMN)", type := "REGION",
    color := "#E74C3C", position := ⟨0, 1, 9/5⟩, parts := [] }

/-- `Object.values(brainStructure)` in insertion order. -/
def brainStructureValues : List Region :=
  [visual_network, somatomotor_network, dorsal_attention_network,
   ventral_attention_network, limbic_network, frontoparietal_network,
   default_mode_network]

/-- `getMainRegions()`: the catalog entries whose `type` is `'REGION'`. -/
def getMainRegions : List Region :=
  brainStructureValues.filter (fun r => r.type == "REGION")

/-- One extracted mesh: its preserved source `name` and its geometry's
vertex positions (world transform already baked in, as after step 1 of the
processing effect). -/
structure Mesh where
  name : String
  verts : List Vec3
deriving DecidableEq, Repr

/-- JavaScript `String.prototype.toLowerCase`, as a character list. -/
def lowerStr (s : String) : List Char := s.data.map Char.toLower

/-- Whether `hay` starts with `sub` (character-exact). -/
def charsStartWith : List Char → List Char → Bool
  | _, [] => true
  | [], _ :: _ => false
  | a :: as, b :: bs => a == b && charsStartWith as bs

/-- JavaScript `String.prototype.includes`: `sub` occurs contiguously in
`hay`. -/
def charsContain : List Char → List Char → Bool
  | [], sub => sub.isEmpty
  | a :: t, sub => charsStartWith (a :: t) sub || charsContain t sub

/-- `regionName.replace(/\s+/g, '')`: drop all whitespace characters. -/
def stripWs (l : List Char) : List Char := l.filter (fun c => !c.isWhitespace)

/-- `regionName.split(' ')[0]`: the characters before the first space. -/
def firstWord (l : List Char) : List Char := l.takeWhile (fun c => c ≠ ' ')

/-- The name-matching test of `mapMeshToRegion` step 1: the lower-cased mesh
name contains the region id, or the region's lower-cased name with
whitespace stripped, or the first word of the region's lower-cased name. -/
def nameMatches (meshName : String) (r : Region) : Bool :=
  let mn := lowerStr meshName
  let rid := lowerStr r.id
  let rname := lowerStr r.name
  charsContain mn rid || charsContain mn (stripWs rname) ||
    charsContain mn (firstWord rname)

/-- The shared nearest-anchor loop of `mapMeshToRegion` step 2 and
`handlePointerMove`: fold over the regions keeping `(closest, minDist)`,
starting from `(null, Infinity)` (modelled as `none`), updating on the
strict comparison `distance < minDistance`.  Distances are squared
(see module docstring). -/
def scanLoop (p : Vec3) : Option (Region × ℚ) → List Region → Option (Region × ℚ)
  | acc, [] => acc
  | acc, r :: rest =>
    let d := dist2 p r.position
    match acc with
    | none => scanLoop p (some (r, d)) rest
    | some (b, db) =>
      if d < db then scanLoop p (some (r, d)) rest
      else scanLoop p (some (b, db)) rest

/-- The nearest-anchor scan started from `(null, Infinity)`. -/
def scanClosest (p : Vec3) (regions : List Region) : Option (Region × ℚ) :=
  scanLoop p none regions

/-- `Box3.getCenter` of a vertex list's bounding box: `(min + max) * 0.5`,
the zero vector for an empty box (three.js behaviour). -/
def centerOfVerts (verts : List Vec3) : Vec3 :=
  match computeBoundingBox verts with
  | none => ⟨0, 0, 0⟩
  | some (lo, hi) => vscale (1/2) (vadd lo hi)

/-- `mapMeshToRegion(mesh, index)` generalised over the region list it
scans (the source calls it with `getMainRegions()`).  Tier 1: name match in
catalog order.  Tier 2: nearest anchor to the mesh bounding-box center,
accepted when the distance is below 5.0 (squared: 25).  Tier 3: index-mod
fallback, and `brainStructure.default_mode_network` when the region list is
empty.  Every return path of the source returns a region object, so the
result type is `Region`. -/
def mapMeshToRegionWith (regions : List Region) (mesh : Mesh) (index : Nat) : Region :=
  match regions.find? (fun r => nameMatches mesh.name r) with
  | some r => r
  | none =>
    let center := centerOfVerts mesh.verts
    match scanClosest center regions with
    | some (closestRegion, minDistance) =>
      if minDistance < 25 then closestRegion
      else if regions.length > 0 then
        regions.getD (index % regions.length) default_mode_network
      else default_mode_network
    | none =>
      if regions.length > 0 then
        regions.getD (index % regions.length) default_mode_network
      else default_mode_network

/-- `mapMeshToRegion` as the component uses it, over `getMainRegions()`. -/
def mapMeshToRegion (mesh : Mesh) (index : Nat) : Region :=
  mapMeshToRegionWith getMainRegions mesh index

/-- The per-primitive assignment pass of the processing effect
(`extractedMeshes.forEach((mesh, index) => … mapMeshToRegion(mesh, index))`),
carrying the running index. -/
def resolveAllFrom (regions : List Region) : Nat → List Mesh → List Region
  | _, [] => []
  | i, m :: rest => mapMeshToRegionWith regions m i :: resolveAllFrom regions (i + 1) rest

/-- Region assignment for every mesh, in order, starting at index 0. -/
def resolveAllWith (regions : List Region) (meshes : List Mesh) : List Region :=
  resolveAllFrom regions 0 meshes

/-- The union bounding box of all meshes (`totalBox` in the effect):
per-mesh `computeBoundingBox` folded with `Box3.union`. -/
def totalBoxOf (meshes : List Mesh) : Option Box :=
  meshes.foldl (fun acc m => unionBox acc (computeBoundingBox m.verts)) none

/-- `totalBox.getCenter(center)`. -/
def boxCenterOf (meshes : List Mesh) : Vec3 :=
  match totalBoxOf meshes with
  | none => ⟨0, 0, 0⟩
  | some (lo, hi) => vscale (1/2) (vadd lo hi)

/-- `totalBox.getSize(size)`: `max - min`, zero for an empty box. -/
def boxSizeOf (meshes : List Mesh) : Vec3 :=
  match totalBoxOf meshes with
  | none => ⟨0, 0, 0⟩
  | some (lo, hi) => vsub hi lo

/-- `maxDim = Math.max(size.x, size.y, size.z)`. -/
def maxDimOf (meshes : List Mesh) : ℚ :=
  max (boxSizeOf meshes).x (max (boxSizeOf meshes).y (boxSizeOf meshes).z)

/-- `normalizationScale = 4.0 / (maxDim || 1)`: the JavaScript `||` takes
the fallback exactly when `maxDim` is `0`. -/
def normalizationScaleOf (meshes : List Mesh) : ℚ :=
  4 / (if maxDimOf meshes = 0 then 1 else maxDimOf meshes)

/-- The per-vertex normalization map: `geometry.translate(-center…)` then
`geometry.scale(normalizationScale…)`. -/
def nmap (center : Vec3) (s : ℚ) (v : Vec3) : Vec3 :=
  vscale s (vsub v center)

/-- Normalization applied to one mesh's geometry. -/
def normalizeMesh (center : Vec3) (s : ℚ) (m : Mesh) : Mesh :=
  { m with verts := m.verts.map (nmap center s) }

/-- The result of the successful processing effect: normalized meshes, the
normalization scale, and the per-mesh region assignments (the
`newMeshRegionMap` entries in mesh order — the `if (region)` guard of the
source always passes because `mapMeshToRegion` returns on every path). -/
structure ProcessResult where
  meshes : List Mesh
  scaleFactor : ℚ
  assignments : List Region
deriving DecidableEq, Repr

/-- The processing effect (lines 69–136), generalised over the catalog used
by the assignment pass: bail out (`return`) when no meshes were extracted,
otherwise center, scale, and assign regions to the normalized meshes. -/
def processModelWith (regions : List Region) (meshes : List Mesh) : Option ProcessResult :=
  if meshes.isEmpty then none
  else
    let center := boxCenterOf meshes
    let nScale := normalizationScaleOf meshes
    let normed := meshes.map (normalizeMesh center nScale)
    some { meshes := normed, scaleFactor := nScale,
           assignments := resolveAllWith regions normed }

/-- The processing effect over the real catalog. -/
def processModel (meshes : List Mesh) : Option ProcessResult :=
  processModelWith getMainRegions meshes

/-- `handlePointerMove` generalised over the catalog: divide the world
point by the display scale, scan for the nearest anchor, accept under the
hover threshold 2.0 (squared: 4) with the strict `<` of the source. -/
def handlePointerMoveWith (regions : List Region) (scale : ℚ) (point : Vec3) : Option Region :=
  match scanClosest (vdiv point scale) regions with
  | some (closest, minDist) => if minDist < 4 then some closest else none
  | none => none

/-- `handlePointerMove` over the real catalog. -/
def handlePointerMove (scale : ℚ) (point : Vec3) : Option Region :=
  handlePointerMoveWith getMainRegions scale point

/-- The component state touched by the processing effect: `modelLoaded`,
`meshes`, and the per-mesh assignments (the `meshRegionMap`). -/
structure CState where
  modelLoaded : Bool
  meshes : List Mesh
  assignments : List Region
deriving DecidableEq, Repr

/-- The initial `useState` values: not loaded, no meshes, empty map. -/
def initialCState : CState :=
  { modelLoaded := false, meshes := [], assignments := [] }

/-- The processing effect as a state transition: on the early `return`
(zero extracted meshes) the state is left untouched; otherwise
`setMeshes` / `setMeshRegionMap` / `setModelLoaded(true)` fire. -/
def stepLoad (extracted : List Mesh) (st : CState) : CState :=
  match processModel extracted with
  | none => st
  | some res =>
    { modelLoaded := true, meshes := res.meshes, assignments := res.assignments }

/-- What the component renders. -/
inductive View where
  | overlayMessage (text : String) : View
  | modelGroup (scale : ℚ) (meshes : List Mesh) : View
deriving DecidableEq, Repr

/-- The render branch (lines 288–299): the `Html` fallback with the text
`Loading Brain Model...` while `!modelLoaded || meshes.length === 0`,
otherwise the scaled model group. -/
def render (st : CState) (scale : ℚ) : View :=
  if !st.modelLoaded || st.meshes.isEmpty then
    View.overlayMessage "Loading Brain Model..."
  else View.modelGroup scale st.meshes

/-- Derived material state for one mesh (lines 247–286), keeping the base
color string read from the region and which of the three visual branches
was taken; the three.js `Color.multiplyScalar` arithmetic on a fresh copy
of the color is presentation detail abstracted into the branch tag. -/
inductive MaterialState where
  | selectedHighlight (baseColor : String) : MaterialState
  | dimmed : MaterialState
  | normal (baseColor : String) : MaterialState
deriving DecidableEq, Repr

/-- `region?.color || '#cccccc'`. -/
def colorOf (region : Option Region) : String :=
  match region with
  | some r => r.color
  | none => "#cccccc"

/-- The material derivation for one mesh given the selected region and the
mesh's mapped region. -/
def deriveMaterial (selectedRegion : Option Region) (region : Option Region) : MaterialState :=
  let isSelected :=
    match selectedRegion, region with
    | some s, some r => s.id == r.id
    | _, _ => false
  if isSelected then MaterialState.selectedHighlight (colorOf region)
  else
    match selectedRegion with
    | some _ => MaterialState.dimmed
    | none => MaterialState.normal (colorOf region)

/-- The whole engine: the read-only catalog plus the mutable component
state (load results, hover, derived materials). -/
structure Engine where
  catalog : List Region
  loaded : Bool
  meshes : List Mesh
  assignments : List Region
  hover : Option Region
  materials : List MaterialState
deriving DecidableEq, Repr

/-- The load pass run against the engine's catalog. -/
def engineLoad (raw : List Mesh) (e : Engine) : Engine :=
  match processModelWith e.catalog raw with
  | none => e
  | some res =>
    { e with loaded := true, meshes := res.meshes, assignments := res.assignments }

/-- A pointer-move event run against the engine's catalog. -/
def enginePointer (scale : ℚ) (point : Vec3) (e : Engine) : Engine :=
  { e with hover := handlePointerMoveWith e.catalog scale point }

/-- The material-derivation pass (the `useMemo` body). -/
def engineMaterials (selectedRegion : Option Region) (e : Engine) : Engine :=
  { e with materials := e.assignments.map (fun r => deriveMaterial selectedRegion (some r)) }

/-- The image of a box under the normalization map (both corners). -/
def boxMap (center : Vec3) (s : ℚ) (b : Box) : Box :=
  (nmap center s b.1, nmap center s b.2)

/-- Test fixture: first of two regions sharing an anchor position. -/
def fixtureTieA : Region :=
  { id := "tie_a", name := "Tie A", type := "REGION",
    color := "#ffffff", position := ⟨0, 0, 0⟩, parts := [] }

/-- Test fixture: second region at the same anchor position as the first. -/
def fixtureTieB : Region :=
  { id := "tie_b", name := "Tie B", type := "REGION",
    color := "#000000", position := ⟨0, 0, 0⟩, parts := [] }

/-! ## Helper lemmas -/

/-- `getMainRegions` evaluates to the seven networks in insertion order. -/
theorem getMainRegions_eq :
    getMainRegions = [visual_network, somatomotor_network, dorsal_attention_network,
      ventral_attention_network, limbic_network, frontoparietal_network,
      default_mode_network] := by
  rfl

/-- Dividing by scale 1 is the identity (`divideScalar(1)`). -/
theorem vdiv_one (p : Vec3) : vdiv p 1 = p := by
  cases p with
  | mk x y z => simp [vdiv, vscale]

/-- The nearest-anchor loop distributes over list append. -/
theorem scanLoop_append (p : Vec3) (xs ys : List Region) :
    ∀ acc, scanLoop p acc (xs ++ ys) = scanLoop p (scanLoop p acc xs) ys := by
  induction xs with
  | nil => intro acc; rfl
  | cons r t ih =>
    intro acc
    cases acc with
    | none => simpa [scanLoop] using ih _
    | some b =>
      obtain ⟨b0, db0⟩ := b
      by_cases h : dist2 p r.position < db0 <;> simp [scanLoop, h, ih]

/-- If the current best distance is no worse than every remaining anchor's,
the loop keeps the current best: the strict `distance < minDistance` test
never fires, so ties preserve the earlier entry. -/
theorem scanLoop_keep (p : Vec3) (b : Region) (db : ℚ) :
    ∀ rs : List Region, (∀ q ∈ rs, db ≤ dist2 p q.position) →
      scanLoop p (some (b, db)) rs = some (b, db) := by
  intro rs
  induction rs with
  | nil => intro _; rfl
  | cons r t ih =>
    intro h
    have hr : ¬ dist2 p r.position < db :=
      not_lt.mpr (h r (List.mem_cons_self r t))
    simp only [scanLoop, if_neg hr]
    exact ih fun q hq => h q (List.mem_cons_of_mem r hq)

/-- The loop either returns its accumulator unchanged or some scanned
region paired with that region's own (squared) distance. -/
theorem scanLoop_cases (p : Vec3) :
    ∀ (rs : List Region) (acc : Option (Region × ℚ)),
      scanLoop p acc rs = acc ∨
        ∃ b ∈ rs, scanLoop p acc rs = some (b, dist2 p b.position) := by
  intro rs
  induction rs with
  | nil => intro acc; exact Or.inl rfl
  | cons r t ih =>
    intro acc
    cases acc with
    | none =>
      rcases ih (some (r, dist2 p r.position)) with h | ⟨b, hb, h⟩
      · exact Or.inr ⟨r, List.mem_cons_self r t, by simpa [scanLoop] using h⟩
      · exact Or.inr ⟨b, List.mem_cons_of_mem r hb, by simpa [scanLoop] using h⟩
    | some a =>
      obtain ⟨b0, db0⟩ := a
      by_cases hlt : dist2 p r.position < db0
      · rcases ih (some (r, dist2 p r.position)) with h | ⟨b, hb, h⟩
        · exact Or.inr ⟨r, List.mem_cons_self r t, by simpa [scanLoop, hlt] using h⟩
        · exact Or.inr ⟨b, List.mem_cons_of_mem r hb, by simpa [scanLoop, hlt] using h⟩
      · rcases ih (some (b0, db0)) with h | ⟨b, hb, h⟩
        · exact Or.inl (by simpa [scanLoop, hlt] using h)
        · exact Or.inr ⟨b, List.mem_cons_of_mem r hb, by simpa [scanLoop, hlt] using h⟩

/-- The scan returns the first region attaining the minimal distance:
everything before it is strictly farther, everything after it no closer. -/
theorem scan_first_min (p : Vec3) (pre post : List Region) (r : Region)
    (hpre : ∀ q ∈ pre, dist2 p r.position < dist2 p q.position)
    (hpost : ∀ q ∈ post, dist2 p r.position ≤ dist2 p q.position) :
    scanClosest p (pre ++ r :: post) = some (r, dist2 p r.position) := by
  unfold scanClosest
  rw [scanLoop_append]
  rcases scanLoop_cases p pre none with h | ⟨b, hb, h⟩
  · rw [h]
    simp only [scanLoop]
    exact scanLoop_keep p r _ post hpost
  · rw [h]
    have hbr : dist2 p r.position < dist2 p b.position := hpre b hb
    simp only [scanLoop, if_pos hbr]
    exact scanLoop_keep p r _ post hpost

/-- Hover resolution at display scale 1, specified through the first
region attaining the minimal anchor distance: returned when strictly
within the squared threshold 4, none when at or beyond it. -/
theorem handlePointerMove_first_min (pre post : List Region) (r : Region)
    (p : Vec3)
    (hpre : ∀ q ∈ pre, dist2 p r.position < dist2 p q.position)
    (hpost : ∀ q ∈ post, dist2 p r.position ≤ dist2 p q.position) :
    (dist2 p r.position < 4 →
      handlePointerMoveWith (pre ++ r :: post) 1 p = some r) ∧
    (4 ≤ dist2 p r.position →
      handlePointerMoveWith (pre ++ r :: post) 1 p = none) := by
  have hscan : scanClosest (vdiv p 1) (pre ++ r :: post) =
      some (r, dist2 p r.position) := by
    rw [vdiv_one]
    exact scan_first_min p pre post r hpre hpost
  unfold handlePointerMoveWith
  rw [hscan]
  constructor
  · intro hlt
    simp [hlt]
  · intro hge
    simp [not_lt.mpr hge]

/-- `find?` over an append returns the pivot when nothing before it
satisfies the check and the pivot does. -/
theorem find_first_in_append (f : Region → Bool) (r : Region) (hr : f r = true) :
    ∀ (pre : List Region), (∀ q ∈ pre, f q = false) →
      ∀ post, (pre ++ r :: post).find? f = some r := by
  intro pre
  induction pre with
  | nil => intro _ post; simp [List.find?_cons_of_pos _ hr]
  | cons q t ih =>
    intro h post
    have hq : f q = false := h q (List.mem_cons_self q t)
    rw [List.cons_append, List.find?_cons_of_neg (t ++ r :: post) (by simp [hq])]
    exact ih (fun q' hq' => h q' (List.mem_cons_of_mem q hq')) post

/-- With a non-empty catalog, every tier of `mapMeshToRegion` returns an
element of the catalog. -/
theorem mapMeshToRegionWith_mem (regions : List Region) (m : Mesh) (i : Nat)
    (h : regions ≠ []) : mapMeshToRegionWith regions m i ∈ regions := by
  have hlen : 0 < regions.length := List.length_pos.mpr h
  have hfb : regions.getD (i % regions.length) default_mode_network ∈ regions := by
    have hm : i % regions.length < regions.length := Nat.mod_lt _ hlen
    rw [List.getD_eq_getElem?_getD, List.getElem?_eq_getElem hm]
    exact List.getElem_mem hm
  unfold mapMeshToRegionWith
  cases hf : regions.find? (fun r => nameMatches m.name r) with
  | some r => exact List.mem_of_find?_eq_some hf
  | none =>
    simp only []
    rcases scanLoop_cases (centerOfVerts m.verts) regions none with hs | ⟨b, hb, hs⟩
    · rw [show scanClosest (centerOfVerts m.verts) regions = none from hs]
      simp only [if_pos hlen]
      exact hfb
    · rw [show scanClosest (centerOfVerts m.verts) regions =
            some (b, dist2 (centerOfVerts m.verts) b.position) from hs]
      by_cases hd : dist2 (centerOfVerts m.verts) b.position < 25
      · simpa [hd] using hb
      · simp only [if_neg hd, if_pos hlen]
        exact hfb

/-- Each step of the assignment pass produces one region per mesh. -/
theorem resolveAllFrom_length (regions : List Region) :
    ∀ (meshes : List Mesh) (i : Nat),
      (resolveAllFrom regions i meshes).length = meshes.length := by
  intro meshes
  induction meshes with
  | nil => intro i; rfl
  | cons m t ih => intro i; simp [resolveAllFrom, ih]

/-- With a non-empty catalog, every region the assignment pass produces is
a catalog element. -/
theorem resolveAllFrom_mem (regions : List Region) (h : regions ≠ []) :
    ∀ (meshes : List Mesh) (i : Nat) (r : Region),
      r ∈ resolveAllFrom regions i meshes → r ∈ regions := by
  intro meshes
  induction meshes with
  | nil => intro i r hr; simp [resolveAllFrom] at hr
  | cons m t ih =>
    intro i r hr
    simp only [resolveAllFrom, List.mem_cons] at hr
    rcases hr with hr | hr
    · exact hr ▸ mapMeshToRegionWith_mem regions m i h
    · exact ih (i + 1) r hr

/-! ## Claims -/

/-- Claim C10: with an empty main-region catalog (so the index-mod-length
fallback is unavailable), `mapMeshToRegion` still returns the hardcoded
`brainStructure.default_mode_network` — it never returns null for any mesh
and index. -/
theorem C10_empty_catalog_default : ∀ (m : Mesh) (i : Nat),
    mapMeshToRegionWith [] m i = default_mode_network := by
  intro m i
  rfl

/-- Claim C9: no engine operation modifies the catalog — the load pass,
the pointer-resolution pass, the material derivation, and their
composition all leave the catalog list (hence every region's `id`, `name`,
`color`, `position`, `type` and `parts`) exactly as it was. -/
theorem C9_catalog_readonly : ∀ (e : Engine) (raw : List Mesh) (s : ℚ)
    (p : Vec3) (sel : Option Region),
    (engineLoad raw e).catalog = e.catalog ∧
    (enginePointer s p e).catalog = e.catalog ∧
    (engineMaterials sel e).catalog = e.catalog ∧
    (engineMaterials sel (enginePointer s p (engineLoad raw e))).catalog = e.catalog := by
  intro e raw s p sel
  have hload : ∀ e' : Engine, (engineLoad raw e').catalog = e'.catalog := by
    intro e'
    unfold engineLoad
    cases processModelWith e'.catalog raw <;> rfl
  exact ⟨hload e, rfl, rfl, hload e⟩

/-- Claim C2 (amended): when zero primitives are extracted, the processing
effect returns early without touching any state, so the component simply
remains in its `Loading Brain Model...` fallback — the caller never
renders a model, but no distinct load-error state is reported. -/
theorem C2_empty_asset_behavior : ∀ (st : CState) (s : ℚ),
    processModel [] = none ∧
    stepLoad [] st = st ∧
    render { st with modelLoaded := false } s =
      View.overlayMessage "Loading Brain Model..." := by
  intro st s
  exact ⟨rfl, rfl, rfl⟩

/-- Claim C2, counterexample to the claim as stated: after an empty-asset
load the component state is exactly the initial one and the rendered view
is the generic loading overlay, identical to the pre-load view — nothing
observable reports a load failure. -/
theorem C2_counterexample :
    stepLoad [] initialCState = initialCState ∧
    render (stepLoad [] initialCState) 1 = View.overlayMessage "Loading Brain Model..." ∧
    render (stepLoad [] initialCState) 1 = render initialCState 1 := by
  decide

/-- Claim C8: the responsive display scale never leaks into hover
resolution — resolving the scaled world point `s • p` under display scale
`s > 0` gives the same result as resolving `p` under scale 1, because the
handler divides the inverse scale out before any distance comparison. -/
theorem C8_scale_invariance (regions : List Region) (p : Vec3) (s : ℚ)
    (hs : 0 < s) :
    handlePointerMoveWith regions s (vscale s p) =
      handlePointerMoveWith regions 1 p := by
  have hsne : s ≠ 0 := ne_of_gt hs
  have h1 : vdiv (vscale s p) s = p := by
    cases p with
    | mk x y z =>
      simp only [vdiv, vscale, Vec3.mk.injEq]
      refine ⟨?_, ?_, ?_⟩ <;> field_simp
  unfold handlePointerMoveWith
  rw [h1, vdiv_one]

/-- Claim C8 witness at display scale 2 and the point `(1, 1, 1)`. -/
theorem C8_witness :
    (0 : ℚ) < 2 ∧
    handlePointerMoveWith getMainRegions 2 (vscale 2 ⟨1, 1, 1⟩) =
      handlePointerMoveWith getMainRegions 1 ⟨1, 1, 1⟩ :=
  ⟨by norm_num, C8_scale_invariance getMainRegions ⟨1, 1, 1⟩ 2 (by norm_num)⟩

/-- Claim C4 (amended): pointer resolution returns the first-in-catalog
region attaining the minimal anchor distance when that minimum is
*strictly* below the hover threshold, and returns none when the minimum is
at or beyond the threshold.  Distances are compared squared (threshold
2.0 ↦ 4); the source's comparison is the strict `minDist < 2.0`, not `≤`. -/
theorem C4_pointer_resolution (pre post : List Region) (r : Region) (p : Vec3)
    (hpre : ∀ q ∈ pre, dist2 p r.position < dist2 p q.position)
    (hpost : ∀ q ∈ post, dist2 p r.position ≤ dist2 p q.position) :
    (dist2 p r.position < 4 →
      handlePointerMoveWith (pre ++ r :: post) 1 p = some r) ∧
    (4 ≤ dist2 p r.position →
      handlePointerMoveWith (pre ++ r :: post) 1 p = none) :=
  handlePointerMove_first_min pre post r p hpre hpost

/-- Claim C4, counterexample to the claim as stated: the point
`(2, 0.2, -1.8)` is at Euclidean distance exactly 2 (squared: 4) from the
visual network's anchor — its minimal anchor distance, hence `≤` the hover
threshold 2 — yet `handlePointerMove` returns none, because the source
tests the strict `minDist < 2.0`. -/
theorem C4_counterexample :
    dist2 ⟨2, 1/5, -9/5⟩ visual_network.position = 4 ∧
    (∀ q ∈ getMainRegions, 4 ≤ dist2 ⟨2, 1/5, -9/5⟩ q.position) ∧
    handlePointerMove 1 ⟨2, 1/5, -9/5⟩ = none := by
  decide

/-- Claim C4 witness: the point exactly at the visual network's anchor is
at squared distance 0 < 4 from it and strictly closer to it than to every
other anchor, and resolution returns the visual network. -/
theorem C4_witness :
    dist2 ⟨0, 1/5, -9/5⟩ visual_network.position < 4 ∧
    handlePointerMove 1 ⟨0, 1/5, -9/5⟩ = some visual_network := by
  constructor
  · decide
  · show handlePointerMoveWith getMainRegions 1 ⟨0, 1/5, -9/5⟩ = some visual_network
    rw [getMainRegions_eq]
    exact (C4_pointer_resolution [] [somatomotor_network, dorsal_attention_network,
      ventral_attention_network, limbic_network, frontoparietal_network,
      default_mode_network] visual_network ⟨0, 1/5, -9/5⟩
      (by decide) (by decide)).1 (by decide)

/-- Claim C7: tie-break determinism — when a point is equidistant (at the
shared minimal distance, within threshold) from two or more anchors, the
strict `dist < minDist` update keeps the region encountered first in
catalog iteration order, and the result is identical across repeated
calls. -/
theorem C7_tie_break (pre post : List Region) (r r' : Region) (p : Vec3)
    (hpre : ∀ q ∈ pre, dist2 p r.position < dist2 p q.position)
    (hpost : ∀ q ∈ post, dist2 p r.position ≤ dist2 p q.position)
    (_htie : r' ∈ post ∧ dist2 p r'.position = dist2 p r.position)
    (hthr : dist2 p r.position < 4) :
    handlePointerMoveWith (pre ++ r :: post) 1 p = some r ∧
    handlePointerMoveWith (pre ++ r :: post) 1 p =
      handlePointerMoveWith (pre ++ r :: post) 1 p :=
  ⟨(handlePointerMove_first_min pre post r p hpre hpost).1 hthr, rfl⟩

/-- Claim C7 witness: two fixture regions share the anchor `(0,0,0)`;
resolving at that shared position returns the one earlier in catalog
order. -/
theorem C7_witness :
    fixtureTieB ∈ [fixtureTieB] ∧
    dist2 ⟨0, 0, 0⟩ fixtureTieB.position = dist2 ⟨0, 0, 0⟩ fixtureTieA.position ∧
    dist2 ⟨0, 0, 0⟩ fixtureTieA.position < 4 ∧
    handlePointerMoveWith [fixtureTieA, fixtureTieB] 1 ⟨0, 0, 0⟩ = some fixtureTieA := by
  refine ⟨by decide, by decide, by decide, ?_⟩
  exact (C7_tie_break [] [fixtureTieB] fixtureTieA fixtureTieB ⟨0, 0, 0⟩
    (by decide) (by decide) ⟨by decide, by decide⟩ (by decide)).1

/-- Claim C5 (amended): name matching takes priority over spatial
matching — a primitive whose lower-cased name contains a region's id is
assigned that region regardless of its geometry, its position, and its
index, *provided no earlier catalog region also name-matches*; with two
matching regions the first in catalog order wins. -/
theorem C5_name_priority (pre post : List Region) (r : Region) (m : Mesh)
    (i : Nat)
    (hmatch : charsContain (lowerStr m.name) (lowerStr r.id) = true)
    (hpre : ∀ q ∈ pre, nameMatches m.name q = false) :
    mapMeshToRegionWith (pre ++ r :: post) m i = r := by
  have hr : nameMatches m.name r = true := by
    unfold nameMatches
    simp [hmatch]
  have hfind : (pre ++ r :: post).find? (fun q => nameMatches m.name q) = some r :=
    find_first_in_append (fun q => nameMatches m.name q) r hr pre hpre post
  unfold mapMeshToRegionWith
  rw [hfind]

/-- Claim C5, counterexample to the claim as stated: the mesh name
`visual_networkdefault_mode_network` contains the id of
`default_mode_network`, yet the resolver assigns `visual_network`
(the earlier catalog region whose id the name also contains), so "contains
a region's id ⇒ assigned that region" fails as a universal statement. -/
theorem C5_counterexample :
    charsContain (lowerStr "visual_networkdefault_mode_network")
      (lowerStr default_mode_network.id) = true ∧
    mapMeshToRegion ⟨"visual_networkdefault_mode_network", []⟩ 0 = visual_network ∧
    visual_network ≠ default_mode_network := by
  decide

/-- Claim C5 witness: a primitive named `default_mode_network` but located
at the visual network's anchor (far from the DMN anchor, nearest to a
different region's anchor) is still assigned `default_mode_network`; no
earlier catalog region name-matches. -/
theorem C5_witness :
    charsContain (lowerStr "default_mode_network")
      (lowerStr default_mode_network.id) = true ∧
    (∀ q ∈ [visual_network, somatomotor_network, dorsal_attention_network,
        ventral_attention_network, limbic_network, frontoparietal_network],
      nameMatches "default_mode_network" q = false) ∧
    mapMeshToRegion ⟨"default_mode_network", [⟨0, 1/5, -9/5⟩]⟩ 7 =
      default_mode_network := by
  refine ⟨by decide, by decide, ?_⟩
  show mapMeshToRegionWith getMainRegions ⟨"default_mode_network", [⟨0, 1/5, -9/5⟩]⟩ 7 =
    default_mode_network
  rw [getMainRegions_eq]
  exact C5_name_priority [visual_network, somatomotor_network,
    dorsal_attention_network, ventral_attention_network, limbic_network,
    frontoparietal_network] [] default_mode_network
    ⟨"default_mode_network", [⟨0, 1/5, -9/5⟩]⟩ 7 (by decide) (by decide)

/-- Claim C6: with a non-empty catalog the assignment pass is total and
deterministic — it produces exactly one region per primitive (one list
entry per mesh, each a catalog region, via name match, thresholded
nearest-anchor match, or the index-mod fallback), and running it twice on
the same input yields identical assignments. -/
theorem C6_total_deterministic (regions : List Region) (meshes : List Mesh)
    (h : regions ≠ []) :
    (resolveAllWith regions meshes).length = meshes.length ∧
    (∀ r ∈ resolveAllWith regions meshes, r ∈ regions) ∧
    resolveAllWith regions meshes = resolveAllWith regions meshes :=
  ⟨resolveAllFrom_length regions meshes 0,
   fun r hr => resolveAllFrom_mem regions h meshes 0 r hr,
   rfl⟩

/-- Claim C1 (amended): for a degenerate asset (union bounding box of
maximum dimension 0, e.g. all vertices identical), normalization does not
divide by zero — the divisor falls back to 1 via `maxDim || 1` — but the
resulting scale factor is `4.0 / 1 = 4` (the characteristic size), not 1
as the claim states. -/
theorem C1_degenerate_scale (meshes : List Mesh) (h : meshes ≠ [])
    (hd : maxDimOf meshes = 0) :
    normalizationScaleOf meshes = 4 ∧
    ∃ res, processModel meshes = some res ∧ res.scaleFactor = 4 := by
  have hs : normalizationScaleOf meshes = 4 := by
    unfold normalizationScaleOf
    rw [hd]
    norm_num
  have hne : meshes.isEmpty = false := by
    cases meshes with
    | nil => exact absurd rfl h
    | cons a t => rfl
  refine ⟨hs, ?_⟩
  unfold processModel processModelWith
  rw [hne]
  exact ⟨_, rfl, hs⟩

/-- Claim C1, counterexample to the claim as stated: for the degenerate
one-vertex asset, the processing effect yields `scaleFactor = 4`, not 1. -/
theorem C1_counterexample :
    Option.map ProcessResult.scaleFactor (processModel [⟨"m", [⟨1, 2, 3⟩]⟩]) = some 4 ∧
    Option.map ProcessResult.scaleFactor (processModel [⟨"m", [⟨1, 2, 3⟩]⟩]) ≠ some 1 := by
  decide

/-- Claim C1 witness: a two-vertex asset whose vertices coincide is
degenerate and gets scale factor 4. -/
theorem C1_witness :
    ([⟨"m", [⟨1, 2, 3⟩, ⟨1, 2, 3⟩]⟩] : List Mesh) ≠ [] ∧
    maxDimOf [⟨"m", [⟨1, 2, 3⟩, ⟨1, 2, 3⟩]⟩] = 0 ∧
    (normalizationScaleOf [⟨"m", [⟨1, 2, 3⟩, ⟨1, 2, 3⟩]⟩] = 4 ∧
      ∃ res, processModel [⟨"m", [⟨1, 2, 3⟩, ⟨1, 2, 3⟩]⟩] = some res ∧
        res.scaleFactor = 4) :=
  ⟨by decide, by decide,
   C1_degenerate_scale [⟨"m", [⟨1, 2, 3⟩, ⟨1, 2, 3⟩]⟩] (by decide) (by decide)⟩

/-- Claim C6 witness on the real catalog and a two-mesh asset (one
spatially matched, one name matched). -/
theorem C6_witness :
    getMainRegions ≠ [] ∧
    (resolveAllWith getMainRegions
      [⟨"m", [⟨0, 0, 0⟩]⟩, ⟨"visual_network", []⟩]).length =
      ([⟨"m", [⟨0, 0, 0⟩]⟩, ⟨"visual_network", []⟩] : List Mesh).length :=
  ⟨by decide,
   (C6_total_deterministic getMainRegions
     [⟨"m", [⟨0, 0, 0⟩]⟩, ⟨"visual_network", []⟩] (by decide)).1⟩

/-! ## Normalization geometry -/

/-- Scaling by a nonnegative factor after translating commutes with
`min` componentwise. -/
theorem rat_affine_min (s c a b : ℚ) (hs : 0 ≤ s) :
    s * (min a b - c) = min (s * (a - c)) (s * (b - c)) := by
  rw [← min_sub_sub_right, mul_min_of_nonneg _ _ hs]

/-- Scaling by a nonnegative factor after translating commutes with
`max` componentwise. -/
theorem rat_affine_max (s c a b : ℚ) (hs : 0 ≤ s) :
    s * (max a b - c) = max (s * (a - c)) (s * (b - c)) := by
  rw [← max_sub_sub_right, mul_max_of_nonneg _ _ hs]

/-- The normalization map commutes with the componentwise minimum. -/
theorem nmap_vmin (c : Vec3) (s : ℚ) (hs : 0 ≤ s) (a b : Vec3) :
    nmap c s (vmin a b) = vmin (nmap c s a) (nmap c s b) := by
  obtain ⟨ax, ay, az⟩ := a
  obtain ⟨bx, by', bz⟩ := b
  obtain ⟨cx, cy, cz⟩ := c
  simp only [nmap, vscale, vsub, vmin, Vec3.mk.injEq]
  exact ⟨rat_affine_min _ _ _ _ hs, rat_affine_min _ _ _ _ hs,
    rat_affine_min _ _ _ _ hs⟩

/-- The normalization map commutes with the componentwise maximum. -/
theorem nmap_vmax (c : Vec3) (s : ℚ) (hs : 0 ≤ s) (a b : Vec3) :
    nmap c s (vmax a b) = vmax (nmap c s a) (nmap c s b) := by
  obtain ⟨ax, ay, az⟩ := a
  obtain ⟨bx, by', bz⟩ := b
  obtain ⟨cx, cy, cz⟩ := c
  simp only [nmap, vscale, vsub, vmax, Vec3.mk.injEq]
  exact ⟨rat_affine_max _ _ _ _ hs, rat_affine_max _ _ _ _ hs,
    rat_affine_max _ _ _ _ hs⟩

/-- Expanding a box by a normalized point is the normalized image of
expanding by the original point. -/
theorem stepPoint_map (c : Vec3) (s : ℚ) (hs : 0 ≤ s) (acc : Option Box) (v : Vec3) :
    stepPoint (Option.map (boxMap c s) acc) (nmap c s v) =
      Option.map (boxMap c s) (stepPoint acc v) := by
  cases acc with
  | none => rfl
  | some b =>
    obtain ⟨lo, hi⟩ := b
    simp only [stepPoint, Option.map, boxMap]
    rw [← nmap_vmin c s hs, ← nmap_vmax c s hs]

/-- The bounding-box fold over normalized vertices is the normalized image
of the fold over the original vertices. -/
theorem foldl_stepPoint_map (c : Vec3) (s : ℚ) (hs : 0 ≤ s) :
    ∀ (verts : List Vec3) (acc : Option Box),
      (verts.map (nmap c s)).foldl stepPoint (Option.map (boxMap c s) acc) =
        Option.map (boxMap c s) (verts.foldl stepPoint acc) := by
  intro verts
  induction verts with
  | nil => intro acc; rfl
  | cons v t ih =>
    intro acc
    simp only [List.map_cons, List.foldl_cons]
    rw [stepPoint_map c s hs, ih]

/-- `computeBoundingBox` commutes with the normalization map. -/
theorem computeBoundingBox_map (c : Vec3) (s : ℚ) (hs : 0 ≤ s) (verts : List Vec3) :
    computeBoundingBox (verts.map (nmap c s)) =
      Option.map (boxMap c s) (computeBoundingBox verts) := by
  unfold computeBoundingBox
  simpa using foldl_stepPoint_map c s hs verts none

/-- `Box3.union` commutes with the normalization map. -/
theorem unionBox_map (c : Vec3) (s : ℚ) (hs : 0 ≤ s) (a b : Option Box) :
    unionBox (Option.map (boxMap c s) a) (Option.map (boxMap c s) b) =
      Option.map (boxMap c s) (unionBox a b) := by
  cases a with
  | none => cases b <;> rfl
  | some ab =>
    cases b with
    | none => rfl
    | some bb =>
      obtain ⟨lo1, hi1⟩ := ab
      obtain ⟨lo2, hi2⟩ := bb
      simp only [unionBox, Option.map, boxMap]
      rw [← nmap_vmin c s hs, ← nmap_vmax c s hs]

/-- The union-box fold over normalized meshes is the normalized image of
the fold over the original meshes. -/
theorem foldl_stepMesh_map (c : Vec3) (s : ℚ) (hs : 0 ≤ s) :
    ∀ (meshes : List Mesh) (acc : Option Box),
      (meshes.map (normalizeMesh c s)).foldl
          (fun acc m => unionBox acc (computeBoundingBox m.verts))
          (Option.map (boxMap c s) acc) =
        Option.map (boxMap c s)
          (meshes.foldl (fun acc m => unionBox acc (computeBoundingBox m.verts)) acc) := by
  intro meshes
  induction meshes with
  | nil => intro acc; rfl
  | cons m t ih =>
    intro acc
    simp only [List.map_cons, List.foldl_cons]
    have hm : computeBoundingBox ((normalizeMesh c s m).verts) =
        Option.map (boxMap c s) (computeBoundingBox m.verts) := by
      show computeBoundingBox (m.verts.map (nmap c s)) = _
      exact computeBoundingBox_map c s hs m.verts
    rw [hm, unionBox_map c s hs, ih]

/-- The total bounding box of the normalized asset is the normalized image
of the original total bounding box. -/
theorem totalBoxOf_normalize (c : Vec3) (s : ℚ) (hs : 0 ≤ s) (meshes : List Mesh) :
    totalBoxOf (meshes.map (normalizeMesh c s)) =
      Option.map (boxMap c s) (totalBoxOf meshes) := by
  unfold totalBoxOf
  simpa using foldl_stepMesh_map c s hs meshes none

/-- Claim C3 (amended): for every asset whose union bounding box is
non-empty and of positive maximum dimension, after normalization
(translate by minus the union-box center, then uniformly scale) the union
bounding box of all primitives is centered exactly at the origin and its
maximum dimension equals exactly the characteristic size 4.0 (exactness in
ℚ is within any floating-point tolerance).  The positivity hypothesis is
forced: a degenerate asset is scaled by 4 and keeps maximum dimension 0. -/
theorem C3_normalized_bounds (regions : List Region) (meshes : List Mesh)
    (lo hi : Vec3) (hbox : totalBoxOf meshes = some (lo, hi))
    (hdim : 0 < maxDimOf meshes) :
    ∃ res lo' hi', processModelWith regions meshes = some res ∧
      totalBoxOf res.meshes = some (lo', hi') ∧
      vscale (1/2) (vadd lo' hi') = ⟨0, 0, 0⟩ ∧
      max (vsub hi' lo').x (max (vsub hi' lo').y (vsub hi' lo').z) = 4 := by
  have hne : meshes.isEmpty = false := by
    cases meshes with
    | nil => simp [totalBoxOf] at hbox
    | cons a t => rfl
  have hmd0 : maxDimOf meshes ≠ 0 := ne_of_gt hdim
  set c := boxCenterOf meshes with hc
  set s := normalizationScaleOf meshes with hsdef
  have hsval : s = 4 / maxDimOf meshes := by
    rw [hsdef]
    unfold normalizationScaleOf
    rw [if_neg hmd0]
  have hs0 : 0 ≤ s := by
    rw [hsval]
    exact le_of_lt (div_pos (by norm_num) hdim)
  have hres : processModelWith regions meshes =
      some { meshes := meshes.map (normalizeMesh c s), scaleFactor := s,
             assignments := resolveAllWith regions (meshes.map (normalizeMesh c s)) } := by
    unfold processModelWith
    rw [hne]
    rfl
  have hsize : maxDimOf meshes =
      max (hi.x - lo.x) (max (hi.y - lo.y) (hi.z - lo.z)) := by
    unfold maxDimOf boxSizeOf
    rw [hbox]
    rfl
  have hcval : c = vscale (1/2) (vadd lo hi) := by
    rw [hc]
    unfold boxCenterOf
    rw [hbox]
  refine ⟨_, nmap c s lo, nmap c s hi, hres, ?_, ?_, ?_⟩
  · show totalBoxOf (meshes.map (normalizeMesh c s)) = _
    rw [totalBoxOf_normalize c s hs0, hbox]
    rfl
  · obtain ⟨lx, ly, lz⟩ := lo
    obtain ⟨hx, hy, hz⟩ := hi
    rw [hcval]
    simp only [nmap, vscale, vsub, vadd, Vec3.mk.injEq]
    refine ⟨by ring, by ring, by ring⟩
  · obtain ⟨lx, ly, lz⟩ := lo
    obtain ⟨hx, hy, hz⟩ := hi
    obtain ⟨cx, cy, cz⟩ := c
    simp only [nmap, vscale, vsub]
    have e : ∀ u v w : ℚ, s * (u - w) - s * (v - w) = s * (u - v) := by
      intro u v w
      ring
    rw [e, e, e, ← mul_max_of_nonneg _ _ hs0, ← mul_max_of_nonneg _ _ hs0,
      hsval, ← hsize]
    exact div_mul_cancel₀ 4 hmd0

/-- Claim C3, counterexample to the claim as stated: the one-primitive
asset with a single vertex has a maximum union-box dimension of 0 after
normalization, not the characteristic size 4.0 — far outside any
floating-point tolerance. -/
theorem C3_counterexample :
    Option.map (fun res => maxDimOf res.meshes)
      (processModel [⟨"m", [⟨5, 5, 5⟩]⟩]) = some 0 ∧
    Option.map (fun res => maxDimOf res.meshes)
      (processModel [⟨"m", [⟨5, 5, 5⟩]⟩]) ≠ some 4 := by
  decide

/-- Claim C3 witness: a one-mesh asset spanning the box `(0,0,0)–(2,4,8)`
normalizes to a union box centered at the origin with maximum dimension
exactly 4. -/
theorem C3_witness :
    totalBoxOf [⟨"a", [⟨0, 0, 0⟩, ⟨2, 4, 8⟩]⟩] = some (⟨0, 0, 0⟩, ⟨2, 4, 8⟩) ∧
    0 < maxDimOf [⟨"a", [⟨0, 0, 0⟩, ⟨2, 4, 8⟩]⟩] ∧
    (∃ res lo' hi',
      processModelWith getMainRegions [⟨"a", [⟨0, 0, 0⟩, ⟨2, 4, 8⟩]⟩] = some res ∧
      totalBoxOf res.meshes = some (lo', hi') ∧
      vscale (1/2) (vadd lo' hi') = ⟨0, 0, 0⟩ ∧
      max (vsub hi' lo').x (max (vsub hi' lo').y (vsub hi' lo').z) = 4) :=
  ⟨by decide, by decide,
   C3_normalized_bounds getMainRegions [⟨"a", [⟨0, 0, 0⟩, ⟨2, 4, 8⟩]⟩]
     ⟨0, 0, 0⟩ ⟨2, 4, 8⟩ (by decide) (by decide)⟩

end BrainMap
